import Mathlib

/-!
Verification of the LineSight annotation-caching engine.

This file gives a shallow embedding, in Lean, of the core data structures
and operations of the LineSight VS Code extension:

* `jsMapGet` / `jsMapSet` / `jsMapDelete` / `jsMapHas` — an association-list
  model of a JavaScript `Map`, which iterates in insertion order (first
  binding = oldest).  `set` of an existing key updates the binding in place;
  `set` of a new key appends at the end.
* `LRUCache` — the bounded least-recently-used cache from `src/cache.ts`.
* `countLinesM` / `afterCount` / `provideFileDecorationM` — the resolve
  pipeline from `src/decorationProvider.ts` and `src/lineCounter.ts`.
* `refreshM` / `updateFromBufferM` / `flushUpdatesM` — the decoration
  provider's notification batcher.
* `queueUpdateM` — the file-watcher change funnel from `src/fileWatcher.ts`.
* `processChunk` / `countLinesWithReadStreamM` — the streaming line counter.
* `executeCore` / `runCallM` / `settleM` — the `ConcurrencyLimiter` from
  `src/concurrency.ts`, modelled as a small-step machine whose suspension
  points are promise settlements.
* `pqAcquire` / `pqStep` — the in-flight dedup registry (`processingQueue`).

Stored values in the `LRUCache` model have type `Option V`: a binding whose
value is `none` models a JavaScript entry whose stored value is `undefined`,
which `get` cannot distinguish from an absent key.
-/

namespace LineSight

/-- JS `Map.get`: value of the first (unique) binding for `k`, or `none`. -/
def jsMapGet {K V : Type} [DecidableEq K] : List (K × V) → K → Option V
  | [], _ => none
  | (k', v) :: rest, k => if k' = k then some v else jsMapGet rest k

/-- JS `Map.has`: whether a binding for `k` exists (regardless of its value). -/
def jsMapHas {K V : Type} [DecidableEq K] (m : List (K × V)) (k : K) : Bool :=
  (jsMapGet m k).isSome

/-- JS `Map.delete`: remove the binding for `k`, keeping all other bindings
in order. -/
def jsMapDelete {K V : Type} [DecidableEq K] : List (K × V) → K → List (K × V)
  | [], _ => []
  | (k', v) :: rest, k => if k' = k then rest else (k', v) :: jsMapDelete rest k

/-- JS `Map.set`: update the binding in place when `k` is already present,
otherwise append a new binding at the end (most-recently-inserted position). -/
def jsMapSet {K V : Type} [DecidableEq K] : List (K × V) → K → V → List (K × V)
  | [], k, v => [(k, v)]
  | (k', v') :: rest, k, v =>
      if k' = k then (k, v) :: rest else (k', v') :: jsMapSet rest k v

/-- The keys of an association list, in insertion order. -/
def keysOf {K V : Type} (m : List (K × V)) : List K := m.map Prod.fst

/-- Well-formedness of a JS `Map` model: no key is bound twice. -/
def NodupKeys {K V : Type} (m : List (K × V)) : Prop := (keysOf m).Nodup

/--
Model of `LRUCache` from `src/cache.ts`: a bounded LRU cache backed by a plain map in
insertion order (first binding = least recently promoted).  A stored value of
`none` models a stored JavaScript `undefined`.
-/
structure LRUCache (K V : Type) where
  map : List (K × Option V)
  maxSize : Nat
deriving DecidableEq

/-- Constructor `new LRUCache(maxSize)`: empty map, capacity clamped to at least 1. -/
def LRUCache.mk' (K V : Type) (maxSize : Nat) : LRUCache K V :=
  { map := [], maxSize := max 1 maxSize }

/--
Method `LRUCache.get`: look the key up; when the observed value is `undefined`
(absent key, or a stored `undefined`) return it with no promotion; otherwise
promote the entry to most-recently-used by deleting and re-inserting it.
Returns the updated cache together with the observed value.
-/
def LRUCache.get {K V : Type} [DecidableEq K] (c : LRUCache K V) (k : K) :
    LRUCache K V × Option V :=
  let value : Option V :=
    match jsMapGet c.map k with
    | none => none
    | some w => w
  match value with
  | none => (c, none)
  | some v =>
      ({ c with map := jsMapSet (jsMapDelete c.map k) k (some v) }, some v)

/--
Method `LRUCache.set`: delete first when the key exists (so the re-insert moves it
to the end); otherwise, at capacity, evict the oldest (first) binding; then
insert the new binding at the end.
-/
def LRUCache.set {K V : Type} [DecidableEq K] (c : LRUCache K V) (k : K)
    (v : Option V) : LRUCache K V :=
  let m :=
    if jsMapHas c.map k then jsMapDelete c.map k
    else if c.map.length ≥ c.maxSize then
      match c.map with
      | [] => c.map
      | (k0, _) :: _ => jsMapDelete c.map k0
    else c.map
  { c with map := jsMapSet m k v }

/-- Method `LRUCache.delete`. -/
def LRUCache.delete {K V : Type} [DecidableEq K] (c : LRUCache K V) (k : K) :
    LRUCache K V :=
  { c with map := jsMapDelete c.map k }

/-- Method `LRUCache.has`: a non-promoting peek at key presence. -/
def LRUCache.has {K V : Type} [DecidableEq K] (c : LRUCache K V) (k : K) :
    Bool :=
  jsMapHas c.map k

/-- Method `LRUCache.clear`. -/
def LRUCache.clear {K V : Type} (c : LRUCache K V) : LRUCache K V :=
  { c with map := [] }

/-- Getter `LRUCache.size`. -/
def LRUCache.size {K V : Type} (c : LRUCache K V) : Nat := c.map.length

/-- The value `LRUCache.get` would observe for `k`, without the promotion:
`none` both for an absent key and for a stored `undefined`. -/
def lruObs {K V : Type} [DecidableEq K] (c : LRUCache K V) (k : K) : Option V :=
  match jsMapGet c.map k with
  | none => none
  | some w => w

/-- Structure `FileCacheMetadata` from `src/types.ts`: the fingerprint used for
staleness detection. -/
structure Meta where
  size : Nat
  mtimeMs : Nat
deriving DecidableEq

/-- The shape of `vscode.FileDecoration` as built by `createLineDecoration`: a badge and a
tooltip string. -/
structure Deco where
  badge : String
  tooltip : String
deriving DecidableEq

/-- Function `formatLineCount` from `src/lineCounter.ts`. -/
def formatLineCount (count : Nat) : String :=
  if count ≥ 1000000 then toString (count / 1000000) ++ "M"
  else if count ≥ 1000 then toString (count / 1000) ++ "K"
  else if count ≥ 100 then toString (count / 100) ++ "H"
  else toString count

/-- Function `createLineDecoration` from `src/lineCounter.ts`. -/
def createLineDecoration (lineCount : Nat) (estimated : Bool) : Deco :=
  let formattedCount := formatLineCount lineCount
  let badge := if estimated then "~" ++ formattedCount else formattedCount
  let tooltip :=
    if estimated then "~" ++ toString lineCount ++ " lines (estimated)"
    else toString lineCount ++ " lines"
  { badge := badge, tooltip := tooltip }

/-- The numeric configuration fields of `LineSightConfig` used by the resolve
pipeline. -/
structure Config where
  sizeLimit : Nat
  estimationFactor : Nat
  debounceDelay : Nat
deriving DecidableEq

/-- The three per-key caches of `AppState` (`src/state.ts`). -/
structure Caches where
  lineCountCache : LRUCache String Nat
  fileDecorations : LRUCache String Deco
  fileMetadataCache : LRUCache String Meta
deriving DecidableEq

/-- Outcome of the streaming read inside `countLines`: a counted number of
lines, or a failure (read error or read timeout). -/
inductive ReadOutcome
  | ok (n : Nat)
  | err
deriving DecidableEq

/--
Function `countLines` from `src/lineCounter.ts`, called with the `stats` argument the
provider passes.  `statIsFile` is the result of `fileStats.isFile()`,
`isBinary` the result of the `BINARY_EXTENSIONS` lookup on the path's
extension, and `readRes` the outcome of `countLinesWithReadStream`.  On a
read failure the catch block purges all three caches for the key and
resolves to `0`.
-/
def countLinesM (filePath : String) (st : Caches) (statIsFile : Bool)
    (size mtime : Nat) (isBinary : Bool) (readRes : ReadOutcome)
    (cfg : Config) : Caches × Nat :=
  if !statIsFile then (st, 0)
  else
    let st :=
      { st with fileMetadataCache :=
          st.fileMetadataCache.set filePath (some { size := size, mtimeMs := mtime }) }
    if isBinary then (st, 0)
    else if size > cfg.sizeLimit then (st, size / cfg.estimationFactor)
    else
      match readRes with
      | .ok n => (st, n)
      | .err =>
          let st :=
            { st with
              lineCountCache := st.lineCountCache.delete filePath,
              fileDecorations := st.fileDecorations.delete filePath,
              fileMetadataCache := st.fileMetadataCache.delete filePath }
          (st, 0)

/-- Outcome of the `fs.promises.stat` call in `provideFileDecoration`:
a throw (path vanished), a non-regular file, or a regular file's size and
mtime. -/
inductive StatOutcome
  | statError
  | notAFile
  | isFile (size mtime : Nat)
deriving DecidableEq

/-- How the limiter-gated computation goes: immediate rejection because the
limiter's wait queue is full (so `countLines` never runs), or a run of
`countLines` with the given binary flag and stream outcome. -/
inductive LimiterOutcome
  | queueFull
  | ran (isBinary : Bool) (readRes : ReadOutcome)
deriving DecidableEq

/--
The continuation of `provideFileDecoration` after `await lineCountPromise`
settles (`src/decorationProvider.ts` lines 109–128): drop non-positive
counts, re-validate the metadata fingerprint against the one captured at the
start of the call (`size`/`mtime`), and only then write the count and
decoration to the caches.
-/
def afterCount (filePath : String) (size mtime : Nat) (lineCount : Nat)
    (st : Caches) : Caches × Option Deco :=
  if lineCount ≤ 0 then
    ({ st with fileDecorations := st.fileDecorations.delete filePath }, none)
  else
    let metaGet := st.fileMetadataCache.get filePath
    let st := { st with fileMetadataCache := metaGet.1 }
    match metaGet.2 with
    | none => (st, none)
    | some currentMeta =>
        if currentMeta.size ≠ size ∨ currentMeta.mtimeMs ≠ mtime then (st, none)
        else
          let st :=
            { st with lineCountCache := st.lineCountCache.set filePath (some lineCount) }
          let deco := createLineDecoration lineCount false
          let st :=
            { st with fileDecorations := st.fileDecorations.set filePath (some deco) }
          (st, some deco)

/-- The fast-path condition of `provideFileDecoration` (lines 61–70): the
cached count, provided metadata and count are both cached and the cached
fingerprint equals the freshly observed one. -/
def fastHit (st0 : Caches) (filePath : String) (size mtime : Nat) :
    Option Nat :=
  match (st0.fileMetadataCache.get filePath).2,
      (st0.lineCountCache.get filePath).2 with
  | some m, some c =>
      if m.size = size ∧ m.mtimeMs = mtime then some c else none
  | _, _ => none

/--
Method `provideFileDecoration` from `src/decorationProvider.ts`, for a `file`-scheme
URI that passes `shouldSkipPath`.  `stat` is the outcome of the stat call,
`outcome` describes the limiter-gated computation, and `interfere` is the
mutation other cooperative tasks apply to the shared caches while this call
is suspended awaiting the computation (the in-flight dedup registry is
modelled separately by `pqStep`).
-/
def provideFileDecorationM (filePath : String) (st0 : Caches)
    (stat : StatOutcome) (outcome : LimiterOutcome)
    (interfere : Caches → Caches) (cfg : Config) : Caches × Option Deco :=
  match stat with
  | .statError => (st0, none)
  | .notAFile => (st0, none)
  | .isFile size mtime =>
      let metaGet := st0.fileMetadataCache.get filePath
      let countGet := st0.lineCountCache.get filePath
      let st1 :=
        { st0 with fileMetadataCache := metaGet.1, lineCountCache := countGet.1 }
      match fastHit st0 filePath size mtime with
      | some cachedCount =>
          let decoGet := st1.fileDecorations.get filePath
          let cachedDecoration :=
            match decoGet.2 with
            | some d => d
            | none => createLineDecoration cachedCount (size > cfg.sizeLimit)
          let st2 :=
            { st1 with fileDecorations :=
                decoGet.1.set filePath (some cachedDecoration) }
          (st2, some cachedDecoration)
      | none =>
          let committed :=
            st1.fileMetadataCache.set filePath (some { size := size, mtimeMs := mtime })
          let st2 := { st1 with fileMetadataCache := committed }
          if size = 0 then
            let st3 :=
              { st2 with lineCountCache := st2.lineCountCache.set filePath (some 0) }
            let zeroDecoration := createLineDecoration 0 false
            let st4 :=
              { st3 with fileDecorations :=
                  st3.fileDecorations.set filePath (some zeroDecoration) }
            (st4, some zeroDecoration)
          else if size > cfg.sizeLimit then
            let estimatedLineCount := size / cfg.estimationFactor
            let st3 :=
              { st2 with lineCountCache :=
                  st2.lineCountCache.set filePath (some estimatedLineCount) }
            let estimatedDecoration := createLineDecoration estimatedLineCount true
            let st4 :=
              { st3 with fileDecorations :=
                  st3.fileDecorations.set filePath (some estimatedDecoration) }
            (st4, some estimatedDecoration)
          else
            match outcome with
            | .queueFull =>
                -- the limiter rejected; the `.catch` handler resolves to 0
                afterCount filePath size mtime 0 (interfere st2)
            | .ran isBinary readRes =>
                let run := countLinesM filePath st2 true size mtime isBinary readRes cfg
                afterCount filePath size mtime run.2 (interfere run.1)

/-- JS `Set.add` on a set kept in insertion order: a no-op when the element
is already present, otherwise append. -/
def setAdd (s : List String) (x : String) : List String :=
  if x ∈ s then s else s ++ [x]

/-- Constant `PENDING_UPDATES_CAP` from `src/decorationProvider.ts`. -/
def PENDING_UPDATES_CAP : Nat := 500

/-- The mutable fields of `LineCountDecorationProvider` together with the
shared caches it touches.  `refreshTimer` is the absolute time at which the
scheduled flush will fire (`none` when no timer is tracked). -/
structure ProviderState where
  caches : Caches
  processingQueue : List (String × Nat)
  pendingUpdates : List String
  refreshTimer : Option Nat
  fullRefreshPending : Bool
deriving DecidableEq

/-- The per-URI body of the `refresh` loop: queue the path for update and
purge its processing-queue entry and all three cache entries. -/
def refreshOne (ps : ProviderState) (fsPath : String) : ProviderState :=
  { ps with
    pendingUpdates := setAdd ps.pendingUpdates fsPath,
    processingQueue := jsMapDelete ps.processingQueue fsPath,
    caches :=
      { lineCountCache := ps.caches.lineCountCache.delete fsPath,
        fileDecorations := ps.caches.fileDecorations.delete fsPath,
        fileMetadataCache := ps.caches.fileMetadataCache.delete fsPath } }

/--
Method `LineCountDecorationProvider.refresh` from `src/decorationProvider.ts`.
`resources = none` models a call with no argument (full refresh); a single
URI is the one-element list.  `now` is the current time: the debounce timer
is always cleared and rescheduled to fire `delayMs` from now.
-/
def refreshM (resources : Option (List String)) (ps : ProviderState)
    (now : Nat) (isInitializing : Bool) (cfg : Config) : ProviderState :=
  let ps1 :=
    match resources with
    | none =>
        { ps with fullRefreshPending := true, pendingUpdates := [] }
    | some list => list.foldl refreshOne ps
  let ps2 :=
    if !ps1.fullRefreshPending ∧ ps1.pendingUpdates.length > PENDING_UPDATES_CAP then
      { ps1 with fullRefreshPending := true, pendingUpdates := [] }
    else ps1
  let delayMs := if isInitializing then max 100 cfg.debounceDelay else cfg.debounceDelay
  { ps2 with refreshTimer := some (now + delayMs) }

/--
Method `LineCountDecorationProvider.updateFromBuffer`: write the in-memory count and
decoration directly to the caches, queue the path, and reschedule the
debounce timer — without invalidating the metadata cache.
-/
def updateFromBufferM (fsPath : String) (lineCount : Nat) (ps : ProviderState)
    (now : Nat) (cfg : Config) : ProviderState :=
  if lineCount ≤ 0 then ps
  else
    let deco := createLineDecoration lineCount false
    { ps with
      caches :=
        { ps.caches with
          lineCountCache := ps.caches.lineCountCache.set fsPath (some lineCount),
          fileDecorations := ps.caches.fileDecorations.set fsPath (some deco) },
      pendingUpdates := setAdd ps.pendingUpdates fsPath,
      refreshTimer := some (now + cfg.debounceDelay) }

/-- What a flush emits to `_onDidChangeFileDecorations`: nothing, a full
(`undefined`) fire, or the batch of queued paths. -/
inductive FlushEvent
  | silent
  | fireAll
  | fireKeys (ks : List String)
deriving DecidableEq

/-- Method `LineCountDecorationProvider.flushUpdates` (the debounce-timer callback). -/
def flushUpdatesM (ps : ProviderState) : ProviderState × FlushEvent :=
  if ps.fullRefreshPending then
    ({ ps with fullRefreshPending := false, pendingUpdates := [] }, .fireAll)
  else if ps.pendingUpdates.length = 0 then (ps, .silent)
  else ({ ps with pendingUpdates := [] }, .fireKeys ps.pendingUpdates)

/-- Constant `WATCHER_QUEUE_CAP` from `src/fileWatcher.ts`. -/
def WATCHER_QUEUE_CAP : Nat := 500

/-- The file-watcher funnel state held in `AppState`: the pending path set,
the absolute fire time of the running debounce timer (if any), and the delay
that timer was scheduled with (`watcherQueueDelayMs`). -/
structure WatcherState where
  pendingWatcherUpdates : List String
  watcherQueueTimer : Option Nat
  watcherQueueDelayMs : Nat
deriving DecidableEq

/-- Side effect `queueUpdate` requests from the decoration provider. -/
inductive WatcherEffect
  | noEffect
  | fullRefresh
deriving DecidableEq

/--
Function `queueUpdate` from `src/fileWatcher.ts`, for a `file`-scheme URI: add the
path to the pending set; on cap overflow clear everything and request a full
refresh; otherwise start the debounce timer if none is running, and restart
a running timer only when the newly requested (normalized) delay is strictly
shorter than the delay the running timer was scheduled with.
-/
def queueUpdateM (fsPath : String) (ws : WatcherState) (delay : Option Nat)
    (cfg : Config) (now : Nat) : WatcherState × WatcherEffect :=
  let pending := setAdd ws.pendingWatcherUpdates fsPath
  if pending.length > WATCHER_QUEUE_CAP then
    ({ pendingWatcherUpdates := [], watcherQueueTimer := none,
       watcherQueueDelayMs := 0 }, .fullRefresh)
  else
    let normalizedDelay := max 50 (delay.getD cfg.debounceDelay)
    match ws.watcherQueueTimer with
    | none =>
        ({ pendingWatcherUpdates := pending,
           watcherQueueTimer := some (now + normalizedDelay),
           watcherQueueDelayMs := normalizedDelay }, .noEffect)
    | some _ =>
        if normalizedDelay < ws.watcherQueueDelayMs then
          ({ pendingWatcherUpdates := pending,
             watcherQueueTimer := some (now + normalizedDelay),
             watcherQueueDelayMs := normalizedDelay }, .noEffect)
        else
          ({ ws with pendingWatcherUpdates := pending }, .noEffect)

/-- The per-stream counters of `countLinesWithReadStream`
(`src/lineCounter.ts`). -/
structure StreamState where
  lineCount : Nat
  sawAnyContent : Bool
  lastCharWasNewline : Bool
deriving DecidableEq

/-- The body of the character loop in the `data` handler. -/
def charStep (s : StreamState) (c : Char) : StreamState :=
  if c = '\n' then
    { s with lineCount := s.lineCount + 1, lastCharWasNewline := true }
  else { s with lastCharWasNewline := false }

/-- The `data` event handler: record that content was seen (for a non-empty
chunk) and fold the character loop over the chunk. -/
def processChunk (s : StreamState) (data : List Char) : StreamState :=
  let s1 := if data.length > 0 then { s with sawAnyContent := true } else s
  data.foldl charStep s1

/-- Counter state before any `data` event fires. -/
def streamInit : StreamState :=
  { lineCount := 0, sawAnyContent := false, lastCharWasNewline := true }

/-- Function `countLinesWithReadStream` on a stream delivered as a list of chunks that
reaches its `end` event: count newlines, then add one trailing line when the
stream saw content and did not end with a newline. -/
def countLinesWithReadStreamM (chunks : List (List Char)) : Nat :=
  let final := chunks.foldl processChunk streamInit
  if final.sawAnyContent && !final.lastCharWasNewline then final.lineCount + 1
  else final.lineCount

/-- Whether a unit of work given to the limiter settles asynchronously or
throws synchronously inside `fn()` before producing a promise. -/
inductive TaskKind
  | async
  | syncThrow
deriving DecidableEq

/-- Outcome of a caller's `run` handle. -/
inductive TaskOutcome
  | fulfilled
  | rejectedAsync
  | rejectedSync
  | queueFull
deriving DecidableEq

/-- State of a `ConcurrencyLimiter` (`src/concurrency.ts`): the running
count, the FIFO wait queue of task ids, the ids of asynchronously running
tasks, and the settled outcomes in settlement order. -/
structure LimState where
  running : Nat
  queue : List Nat
  inFlight : List Nat
  outcomes : List (Nat × TaskOutcome)
deriving DecidableEq

/--
The inner `execute` closure from `ConcurrencyLimiter.run`, with the state threaded explicitly:
increment the running count and call `fn()`.  A synchronous throw decrements
the count, rejects the caller, and dequeues the next waiting unit — which
may itself throw synchronously, hence the recursion along the wait queue.
An asynchronous unit stays in flight until a `settleM` event.
-/
def executeCore (beh : Nat → TaskKind) (maxC : Nat) :
    Nat → Nat → List Nat → List Nat → List (Nat × TaskOutcome) → LimState
  | t, running, queue, inFlight, outcomes =>
    match beh t with
    | .async =>
        { running := running + 1, queue := queue,
          inFlight := inFlight ++ [t], outcomes := outcomes }
    | .syncThrow =>
        let running2 := running + 1 - 1
        let outcomes2 := outcomes ++ [(t, TaskOutcome.rejectedSync)]
        match queue with
        | [] =>
            { running := running2, queue := [], inFlight := inFlight,
              outcomes := outcomes2 }
        | next :: rest =>
            if running2 < maxC then executeCore beh maxC next running2 rest inFlight outcomes2
            else
              { running := running2, queue := next :: rest, inFlight := inFlight,
                outcomes := outcomes2 }

/-- The `execute` step on a packaged state. -/
def execute (beh : Nat → TaskKind) (maxC : Nat) (t : Nat) (st : LimState) :
    LimState :=
  executeCore beh maxC t st.running st.queue st.inFlight st.outcomes

/-- Method `ConcurrencyLimiter.dequeue`: when a unit is waiting and a slot is free,
shift the queue head and execute it. -/
def dequeueM (beh : Nat → TaskKind) (maxC : Nat) (st : LimState) : LimState :=
  match st.queue with
  | [] => st
  | next :: rest =>
      if st.running < maxC then execute beh maxC next { st with queue := rest }
      else st

/-- Method `ConcurrencyLimiter.run`: start immediately below the concurrency cap,
queue below the queue cap, otherwise reject at once with a queue-full error
without touching the running count. -/
def runCallM (beh : Nat → TaskKind) (maxC maxQ : Nat) (t : Nat)
    (st : LimState) : LimState :=
  if st.running < maxC then execute beh maxC t st
  else if st.queue.length < maxQ then { st with queue := st.queue ++ [t] }
  else { st with outcomes := st.outcomes ++ [(t, TaskOutcome.queueFull)] }

/-- Settlement of an in-flight unit's promise (the `result.then` handlers):
decrement the running count, record the caller's outcome, and dequeue the
next waiting unit. -/
def settleM (beh : Nat → TaskKind) (maxC : Nat) (t : Nat) (ok : Bool)
    (st : LimState) : LimState :=
  if t ∈ st.inFlight then
    let outcome := if ok then TaskOutcome.fulfilled else TaskOutcome.rejectedAsync
    let st1 : LimState :=
      { running := st.running - 1, queue := st.queue,
        inFlight := st.inFlight.erase t, outcomes := st.outcomes ++ [(t, outcome)] }
    dequeueM beh maxC st1
  else st

/-- The observable events at which the limiter's state changes: a `run` call,
or the settlement of a running unit's promise. -/
inductive LimEvent
  | call (t : Nat)
  | settle (t : Nat) (ok : Bool)
deriving DecidableEq

/-- One scheduler step. -/
def limStep (beh : Nat → TaskKind) (maxC maxQ : Nat) (st : LimState)
    (e : LimEvent) : LimState :=
  match e with
  | .call t => runCallM beh maxC maxQ t st
  | .settle t ok => settleM beh maxC t ok st

/-- A freshly constructed limiter. -/
def limInit : LimState :=
  { running := 0, queue := [], inFlight := [], outcomes := [] }

/-- The limiter state after an arbitrary event trace. -/
def limRun (beh : Nat → TaskKind) (maxC maxQ : Nat) (evs : List LimEvent) :
    LimState :=
  evs.foldl (limStep beh maxC maxQ) limInit

/-- The in-flight dedup registry `processingQueue` of
`LineCountDecorationProvider`: a map from file path to the id of the shared
in-flight line-count promise, plus a fresh-id counter and the number of
underlying computations started so far. -/
structure PQState where
  queue : List (String × Nat)
  nextId : Nat
  started : Nat
deriving DecidableEq

/-- Registry at provider construction. -/
def pqInit : PQState := { queue := [], nextId := 0, started := 0 }

/-- Lines 92–107 of `provideFileDecoration`: reuse the in-flight promise for
the path when one exists, otherwise start a new limiter-gated computation and
register its promise.  Returns the handle the caller will await. -/
def pqAcquire (st : PQState) (p : String) : PQState × Nat :=
  match jsMapGet st.queue p with
  | some h => (st, h)
  | none =>
      ({ queue := jsMapSet st.queue p st.nextId, nextId := st.nextId + 1,
         started := st.started + 1 }, st.nextId)

/-- The `.then`/`.catch` handlers attached at creation: on settlement
(success or failure) the registry entry for the path is deleted. -/
def pqSettle (st : PQState) (p : String) : PQState :=
  { st with queue := jsMapDelete st.queue p }

/-- Registry events: a resolve call reaching the dedup step, or the
settlement of the in-flight promise for a path. -/
inductive PQOp
  | acquire (p : String)
  | settle (p : String)

/-- One registry transition. -/
def pqStep (st : PQState) (op : PQOp) : PQState :=
  match op with
  | .acquire p => (pqAcquire st p).1
  | .settle p => pqSettle st p

/-- Registry state after an arbitrary operation trace. -/
def pqRun (ops : List PQOp) : PQState := ops.foldl pqStep pqInit

/-! ### Lemmas about the JS `Map` model -/

theorem jsMapGet_set_self {K V : Type} [DecidableEq K] (m : List (K × V))
    (k : K) (v : V) : jsMapGet (jsMapSet m k v) k = some v := by
  induction m with
  | nil => simp [jsMapSet, jsMapGet]
  | cons e rest ih =>
      obtain ⟨k', v'⟩ := e
      by_cases h : k' = k <;> simp [jsMapSet, jsMapGet, h, ih]

theorem jsMapGet_set_ne {K V : Type} [DecidableEq K] (m : List (K × V))
    (k' k : K) (v : V) (h : k' ≠ k) :
    jsMapGet (jsMapSet m k' v) k = jsMapGet m k := by
  induction m with
  | nil => simp [jsMapSet, jsMapGet, h]
  | cons e rest ih =>
      obtain ⟨k0, v0⟩ := e
      by_cases h0 : k0 = k' <;> simp [jsMapSet, jsMapGet, h0, ih]
      · subst h0; simp [jsMapGet, h]

theorem jsMapGet_delete_ne {K V : Type} [DecidableEq K] (m : List (K × V))
    (k' k : K) (h : k' ≠ k) :
    jsMapGet (jsMapDelete m k') k = jsMapGet m k := by
  induction m with
  | nil => simp [jsMapDelete]
  | cons e rest ih =>
      obtain ⟨k0, v0⟩ := e
      by_cases h0 : k0 = k' <;> simp [jsMapDelete, jsMapGet, h0, ih]
      · subst h0; simp [jsMapGet, h]

theorem keysOf_nil {K V : Type} : keysOf ([] : List (K × V)) = [] := rfl

theorem keysOf_cons {K V : Type} (e : K × V) (m : List (K × V)) :
    keysOf (e :: m) = e.1 :: keysOf m := rfl

theorem mem_keysOf_iff {K V : Type} [DecidableEq K] (m : List (K × V))
    (k : K) : k ∈ keysOf m ↔ (jsMapGet m k).isSome := by
  induction m with
  | nil => simp [keysOf_nil, jsMapGet]
  | cons e rest ih =>
      obtain ⟨k', v'⟩ := e
      by_cases h : k' = k
      · subst h; simp [keysOf_cons, jsMapGet]
      · rw [keysOf_cons, List.mem_cons, jsMapGet]
        simp only [h, if_false]
        constructor
        · intro hmem
          rcases hmem with h1 | h2
          · exact absurd h1.symm h
          · exact ih.mp h2
        · intro hs
          exact Or.inr (ih.mpr hs)

theorem jsMapGet_eq_none_iff {K V : Type} [DecidableEq K] (m : List (K × V))
    (k : K) : jsMapGet m k = none ↔ k ∉ keysOf m := by
  rw [mem_keysOf_iff]
  cases jsMapGet m k <;> simp

theorem jsMapSet_absent {K V : Type} [DecidableEq K] (m : List (K × V))
    (k : K) (v : V) (h : jsMapGet m k = none) :
    jsMapSet m k v = m ++ [(k, v)] := by
  induction m with
  | nil => simp [jsMapSet]
  | cons e rest ih =>
      obtain ⟨k', v'⟩ := e
      by_cases h0 : k' = k
      · simp [jsMapGet, h0] at h
      · simp [jsMapGet, h0] at h
        simp [jsMapSet, h0, ih h]

theorem jsMapDelete_sublist {K V : Type} [DecidableEq K] (m : List (K × V))
    (k : K) : (jsMapDelete m k).Sublist m := by
  induction m with
  | nil => simp [jsMapDelete]
  | cons e rest ih =>
      obtain ⟨k', v'⟩ := e
      by_cases h : k' = k
      · rw [jsMapDelete, if_pos h]
        exact List.sublist_cons_self (k', v') rest
      · simpa [jsMapDelete, h] using ih.cons₂ (k', v')

theorem nodupKeys_delete {K V : Type} [DecidableEq K] (m : List (K × V))
    (k : K) (h : NodupKeys m) : NodupKeys (jsMapDelete m k) := by
  exact ((jsMapDelete_sublist m k).map Prod.fst).nodup h

theorem nodupKeys_cons_iff {K V : Type} (e : K × V) (m : List (K × V)) :
    NodupKeys (e :: m) ↔ e.1 ∉ keysOf m ∧ NodupKeys m := by
  unfold NodupKeys
  rw [keysOf_cons, List.nodup_cons]

theorem jsMapGet_delete_self {K V : Type} [DecidableEq K] (m : List (K × V))
    (k : K) (h : NodupKeys m) : jsMapGet (jsMapDelete m k) k = none := by
  induction m with
  | nil => simp [jsMapDelete, jsMapGet]
  | cons e rest ih =>
      obtain ⟨k', v'⟩ := e
      obtain ⟨hnotin, hrest⟩ := (nodupKeys_cons_iff _ _).mp h
      by_cases h0 : k' = k
      · subst h0
        simp [jsMapDelete, (jsMapGet_eq_none_iff rest k').mpr hnotin]
      · simp [jsMapDelete, jsMapGet, h0, ih hrest]

theorem keysOf_set {K V : Type} [DecidableEq K] (m : List (K × V)) (k : K)
    (v : V) :
    keysOf (jsMapSet m k v) = if k ∈ keysOf m then keysOf m else keysOf m ++ [k] := by
  induction m with
  | nil => simp [jsMapSet, keysOf_nil, keysOf_cons]
  | cons e rest ih =>
      obtain ⟨k', v'⟩ := e
      by_cases h : k' = k
      · subst h; simp [jsMapSet, keysOf_cons]
      · have hstep : jsMapSet ((k', v') :: rest) k v = (k', v') :: jsMapSet rest k v := by
          simp [jsMapSet, h]
        rw [hstep, keysOf_cons, keysOf_cons, ih]
        by_cases hm : k ∈ keysOf rest
        · simp [hm, List.mem_cons]
        · simp [hm, List.mem_cons, Ne.symm h]

theorem nodupKeys_set {K V : Type} [DecidableEq K] (m : List (K × V)) (k : K)
    (v : V) (h : NodupKeys m) : NodupKeys (jsMapSet m k v) := by
  unfold NodupKeys
  rw [keysOf_set]
  by_cases hm : k ∈ keysOf m <;> simp [hm]
  · exact h
  · exact List.Nodup.append h (List.nodup_singleton k) (by simpa using hm)

theorem jsMapDelete_length {K V : Type} [DecidableEq K] (m : List (K × V))
    (k : K) (h : (jsMapGet m k).isSome) :
    (jsMapDelete m k).length + 1 = m.length := by
  induction m with
  | nil => simp [jsMapGet] at h
  | cons e rest ih =>
      obtain ⟨k', v'⟩ := e
      by_cases h0 : k' = k <;> simp [jsMapDelete, h0]
      · simp [jsMapGet, h0] at h
        exact ih h

theorem mem_jsMapDelete_of_ne {K V : Type} [DecidableEq K] {m : List (K × V)}
    {e : K × V} (k : K) (hm : e ∈ m) (hne : e.1 ≠ k) :
    e ∈ jsMapDelete m k := by
  induction m with
  | nil => simp at hm
  | cons e' rest ih =>
      obtain ⟨k', v'⟩ := e'
      by_cases h0 : k' = k <;> simp [jsMapDelete, h0]
      · rcases List.mem_cons.mp hm with h1 | h2
        · subst h1; exact absurd h0 hne
        · exact h2
      · rcases List.mem_cons.mp hm with h1 | h2
        · exact Or.inl h1
        · exact Or.inr (ih h2)

/-! ### Lemmas about `LRUCache` -/

theorem lru_get_snd {K V : Type} [DecidableEq K] (c : LRUCache K V) (k : K) :
    (c.get k).2 = lruObs c k := by
  unfold LRUCache.get lruObs
  cases h : jsMapGet c.map k with
  | none => simp
  | some w => cases w <;> simp

theorem lru_get_maxSize {K V : Type} [DecidableEq K] (c : LRUCache K V)
    (k : K) : (c.get k).1.maxSize = c.maxSize := by
  unfold LRUCache.get
  cases h : jsMapGet c.map k with
  | none => simp
  | some w => cases w <;> simp

theorem lru_get_nodup {K V : Type} [DecidableEq K] (c : LRUCache K V) (k : K)
    (h : NodupKeys c.map) : NodupKeys (c.get k).1.map := by
  unfold LRUCache.get
  cases hg : jsMapGet c.map k with
  | none => simpa
  | some w =>
      cases w with
      | none => simpa
      | some v => simpa using nodupKeys_set _ _ _ (nodupKeys_delete _ _ h)

theorem lru_set_nodup {K V : Type} [DecidableEq K] (c : LRUCache K V) (k : K)
    (v : Option V) (h : NodupKeys c.map) : NodupKeys (c.set k v).map := by
  have base :
      NodupKeys (if jsMapHas c.map k then jsMapDelete c.map k
        else if c.map.length ≥ c.maxSize then
          match c.map with
          | [] => c.map
          | (k0, _) :: _ => jsMapDelete c.map k0
        else c.map) := by
    by_cases hh : jsMapHas c.map k
    · simpa [hh] using nodupKeys_delete c.map k h
    · by_cases hl : c.map.length ≥ c.maxSize
      · simp only [hh, hl, if_true, if_false, Bool.false_eq_true]
        cases hm : c.map with
        | nil => simpa [hm] using h
        | cons e rest =>
            obtain ⟨k0, v0⟩ := e
            rw [hm] at h
            simp only [jsMapDelete, if_pos rfl]
            exact ((nodupKeys_cons_iff _ _).mp h).2
      · simpa [hh, hl] using h
  show NodupKeys (jsMapSet _ k v)
  exact nodupKeys_set _ _ _ base

theorem lru_delete_nodup {K V : Type} [DecidableEq K] (c : LRUCache K V)
    (k : K) (h : NodupKeys c.map) : NodupKeys (c.delete k).map :=
  nodupKeys_delete _ _ h

theorem lru_set_obs_self {K V : Type} [DecidableEq K] (c : LRUCache K V)
    (k : K) (v : Option V) : jsMapGet (c.set k v).map k = some v := by
  unfold LRUCache.set
  exact jsMapGet_set_self _ _ _

theorem lru_delete_obs_self {K V : Type} [DecidableEq K] (c : LRUCache K V)
    (k : K) (h : NodupKeys c.map) : jsMapGet (c.delete k).map k = none := by
  unfold LRUCache.delete
  exact jsMapGet_delete_self _ _ h

theorem lru_get_obs_none {K V : Type} [DecidableEq K] (c : LRUCache K V)
    (k : K) (h : lruObs c k = none) : (c.get k).1 = c := by
  unfold LRUCache.get
  unfold lruObs at h
  cases hg : jsMapGet c.map k with
  | none => simp
  | some w =>
      cases w with
      | none => simp
      | some v => rw [hg] at h; simp at h

/-! ### Lemmas about the streaming counter -/

theorem charStep_saw (s : StreamState) (c : Char) :
    (charStep s c).sawAnyContent = s.sawAnyContent := by
  unfold charStep
  split <;> rfl

theorem foldl_charStep_saw (l : List Char) (s : StreamState) :
    (l.foldl charStep s).sawAnyContent = s.sawAnyContent := by
  induction l generalizing s with
  | nil => rfl
  | cons c rest ih => rw [List.foldl_cons, ih, charStep_saw]

theorem setSaw_eq_self (s : StreamState) (h : s.sawAnyContent = true) :
    { s with sawAnyContent := true } = s := by
  obtain ⟨a, b, c⟩ := s
  simp at h
  rw [h]

theorem processChunk_append (s : StreamState) (a b : List Char) :
    processChunk (processChunk s a) b = processChunk s (a ++ b) := by
  cases a with
  | nil => simp [processChunk]
  | cons c0 arest =>
      cases b with
      | nil => simp [processChunk]
      | cons c1 brest =>
          have hsaw :
              ((c0 :: arest).foldl charStep { s with sawAnyContent := true }).sawAnyContent
                = true := by
            rw [foldl_charStep_saw]
          simp only [processChunk, List.length_cons, List.cons_append,
            Nat.succ_eq_add_one, gt_iff_lt, Nat.zero_lt_succ, if_pos,
            List.length_append]
          rw [setSaw_eq_self _ hsaw, ← List.foldl_append]
          simp

theorem foldl_processChunk_join (chunks : List (List Char)) (s : StreamState) :
    chunks.foldl processChunk s = processChunk s chunks.flatten := by
  induction chunks generalizing s with
  | nil => simp [processChunk]
  | cons a rest ih =>
      rw [List.foldl_cons, ih, processChunk_append]
      simp

theorem countStream_eq_single (chunks : List (List Char)) :
    countLinesWithReadStreamM chunks = countLinesWithReadStreamM [chunks.flatten] := by
  unfold countLinesWithReadStreamM
  rw [foldl_processChunk_join]
  rw [List.foldl_cons, List.foldl_nil]

/-! ### Lemmas about the concurrency limiter -/

theorem executeCore_running_le (beh : Nat → TaskKind) (maxC : Nat) :
    ∀ (queue : List Nat) (t running : Nat) (inFlight : List Nat)
      (outcomes : List (Nat × TaskOutcome)), running < maxC →
      (executeCore beh maxC t running queue inFlight outcomes).running ≤ maxC := by
  intro queue
  induction queue with
  | nil =>
      intro t running inFlight outcomes h
      unfold executeCore
      cases beh t with
      | async => simpa using h
      | syncThrow => simp; omega
  | cons next rest ih =>
      intro t running inFlight outcomes h
      unfold executeCore
      cases beh t with
      | async => simpa using h
      | syncThrow =>
          by_cases hr : running < maxC
          · simpa [hr] using ih next running inFlight (outcomes ++ [(t, TaskOutcome.rejectedSync)]) hr
          · simp [hr]; omega

theorem execute_running_le (beh : Nat → TaskKind) (maxC : Nat) (t : Nat)
    (st : LimState) (h : st.running < maxC) :
    (execute beh maxC t st).running ≤ maxC :=
  executeCore_running_le beh maxC st.queue t st.running st.inFlight st.outcomes h

theorem dequeueM_running_le (beh : Nat → TaskKind) (maxC : Nat)
    (st : LimState) (h : st.running ≤ maxC) :
    (dequeueM beh maxC st).running ≤ maxC := by
  unfold dequeueM
  cases hq : st.queue with
  | nil => exact h
  | cons next rest =>
      by_cases hr : st.running < maxC
      · simpa [hr] using execute_running_le beh maxC next { st with queue := rest } hr
      · simpa [hr] using h

theorem runCallM_running_le (beh : Nat → TaskKind) (maxC maxQ : Nat) (t : Nat)
    (st : LimState) (h : st.running ≤ maxC) :
    (runCallM beh maxC maxQ t st).running ≤ maxC := by
  unfold runCallM
  by_cases hr : st.running < maxC
  · simpa [hr] using execute_running_le beh maxC t st hr
  · by_cases hq : st.queue.length < maxQ <;> simpa [hr, hq] using h

theorem settleM_running_le (beh : Nat → TaskKind) (maxC : Nat) (t : Nat)
    (ok : Bool) (st : LimState) (h : st.running ≤ maxC) :
    (settleM beh maxC t ok st).running ≤ maxC := by
  unfold settleM
  by_cases hm : t ∈ st.inFlight
  · simp only [hm, if_pos]
    apply dequeueM_running_le
    simp
    omega
  · simpa [hm] using h

theorem limStep_running_le (beh : Nat → TaskKind) (maxC maxQ : Nat)
    (st : LimState) (e : LimEvent) (h : st.running ≤ maxC) :
    (limStep beh maxC maxQ st e).running ≤ maxC := by
  cases e with
  | call t => exact runCallM_running_le beh maxC maxQ t st h
  | settle t ok => exact settleM_running_le beh maxC t ok st h

theorem foldl_limStep_running_le (beh : Nat → TaskKind) (maxC maxQ : Nat)
    (evs : List LimEvent) (st : LimState) (h : st.running ≤ maxC) :
    (evs.foldl (limStep beh maxC maxQ) st).running ≤ maxC := by
  induction evs generalizing st with
  | nil => exact h
  | cons e rest ih =>
      rw [List.foldl_cons]
      exact ih _ (limStep_running_le beh maxC maxQ st e h)

/-! ### Lemmas about the dedup registry -/

theorem pqStep_nodup (st : PQState) (op : PQOp) (h : NodupKeys st.queue) :
    NodupKeys (pqStep st op).queue := by
  cases op with
  | acquire p =>
      unfold pqStep pqAcquire
      cases hg : jsMapGet st.queue p with
      | some hdl => simpa [hg] using h
      | none => simpa [hg] using nodupKeys_set st.queue p st.nextId h
  | settle p =>
      unfold pqStep pqSettle
      simpa using nodupKeys_delete st.queue p h

theorem foldl_pqStep_nodup (ops : List PQOp) (st : PQState)
    (h : NodupKeys st.queue) : NodupKeys (ops.foldl pqStep st).queue := by
  induction ops generalizing st with
  | nil => exact h
  | cons op rest ih =>
      rw [List.foldl_cons]
      exact ih _ (pqStep_nodup st op h)

/-! ### Claim theorems -/

/--
C9: the streaming line counter counts newline occurrences and adds one
trailing line exactly when the stream ended with non-newline content after
having seen any content: content `""` gives 0, `"a"` gives 1, `"a\n"` gives
1, `"a\nb"` gives 2 and `"a\nb\n"` gives 2, regardless of how the content is
split into chunks.
-/
theorem C9_stream_count :
    (∀ chunks : List (List Char), chunks.flatten = [] →
       countLinesWithReadStreamM chunks = 0) ∧
    (∀ chunks : List (List Char), chunks.flatten = ['a'] →
       countLinesWithReadStreamM chunks = 1) ∧
    (∀ chunks : List (List Char), chunks.flatten = ['a', '\n'] →
       countLinesWithReadStreamM chunks = 1) ∧
    (∀ chunks : List (List Char), chunks.flatten = ['a', '\n', 'b'] →
       countLinesWithReadStreamM chunks = 2) ∧
    (∀ chunks : List (List Char), chunks.flatten = ['a', '\n', 'b', '\n'] →
       countLinesWithReadStreamM chunks = 2) := by
  refine ⟨?_, ?_, ?_, ?_, ?_⟩ <;>
    · intro chunks h
      rw [countStream_eq_single, h]
      decide

/-- Witness for C9 at concrete chunk splits of each content. -/
theorem C9_stream_count_witness :
    countLinesWithReadStreamM [] = 0 ∧
    countLinesWithReadStreamM [['a']] = 1 ∧
    countLinesWithReadStreamM [['a'], ['\n']] = 1 ∧
    countLinesWithReadStreamM [['a', '\n'], ['b']] = 2 ∧
    countLinesWithReadStreamM [['a'], [], ['\n', 'b', '\n']] = 2 :=
  ⟨C9_stream_count.1 [] (by decide),
   C9_stream_count.2.1 [['a']] (by decide),
   C9_stream_count.2.2.1 [['a'], ['\n']] (by decide),
   C9_stream_count.2.2.2.1 [['a', '\n'], ['b']] (by decide),
   C9_stream_count.2.2.2.2 [['a'], [], ['\n', 'b', '\n']] (by decide)⟩

/--
C7: for an `LRUCache` at capacity, `set` of a new key evicts exactly the
least-recently-promoted (first) entry and leaves every other entry present;
`get` of a present value promotes the key to the most-recently-used (last)
position; `has` reports presence without changing the cache; and `set` of an
existing key never evicts and moves that key to the most-recently-used
position.
-/
theorem C7_lru_behavior {K V : Type} [DecidableEq K] :
    (∀ (c : LRUCache K V) (k0 : K) (v0 : Option V) (rest : List (K × Option V))
       (k : K) (v : Option V),
       c.map = (k0, v0) :: rest → rest.length + 1 = c.maxSize →
       jsMapHas c.map k = false →
       (c.set k v).map = rest ++ [(k, v)]) ∧
    (∀ (c : LRUCache K V) (k : K) (w : V), NodupKeys c.map →
       jsMapGet c.map k = some (some w) →
       c.get k = ({ c with map := jsMapDelete c.map k ++ [(k, some w)] }, some w)) ∧
    (∀ (c : LRUCache K V) (k : K), c.has k = (jsMapGet c.map k).isSome) ∧
    (∀ (c : LRUCache K V) (k : K) (v : Option V), NodupKeys c.map →
       jsMapHas c.map k = true →
       (c.set k v).map = jsMapDelete c.map k ++ [(k, v)] ∧
       (c.set k v).map.length = c.map.length ∧
       ∀ e ∈ c.map, e.1 ≠ k → e ∈ (c.set k v).map) := by
  refine ⟨?_, ?_, ?_, ?_⟩
  · intro c k0 v0 rest k v hmap hcap hh
    have habs : jsMapGet c.map k = none := by
      unfold jsMapHas at hh
      cases hg : jsMapGet c.map k with
      | none => rfl
      | some w => rw [hg] at hh; simp at hh
    have hkrest : jsMapGet rest k = none := by
      rw [jsMapGet_eq_none_iff]
      have := (jsMapGet_eq_none_iff c.map k).mp habs
      rw [hmap, keysOf_cons] at this
      intro hmem
      exact this (List.mem_cons_of_mem _ hmem)
    have hlen : c.map.length ≥ c.maxSize := by
      rw [hmap]
      simp
      omega
    unfold LRUCache.set
    rw [hh]
    simp only [Bool.false_eq_true, if_false, hlen, if_pos, ge_iff_le]
    rw [hmap]
    simp only [jsMapDelete, if_pos rfl]
    exact jsMapSet_absent rest k v hkrest
  · intro c k w hnd hg
    unfold LRUCache.get
    rw [hg]
    simp only []
    rw [jsMapSet_absent _ _ _ (jsMapGet_delete_self c.map k hnd)]
  · intro c k
    rfl
  · intro c k v hnd hh
    have hres : (c.set k v).map = jsMapDelete c.map k ++ [(k, v)] := by
      unfold LRUCache.set
      rw [hh]
      simp only [if_pos]
      exact jsMapSet_absent _ _ _ (jsMapGet_delete_self c.map k hnd)
    refine ⟨hres, ?_, ?_⟩
    · rw [hres]
      have := jsMapDelete_length c.map k (by unfold jsMapHas at hh; simpa using hh)
      simp
      omega
    · intro e he hne
      rw [hres]
      exact List.mem_append_left _ (mem_jsMapDelete_of_ne k he hne)

/-- Witness for C7 at a concrete capacity-3 cache over `Nat` keys. -/
theorem C7_lru_behavior_witness :
    (({ map := [(1, some 10), (2, some 20), (3, some 30)], maxSize := 3 } :
        LRUCache Nat Nat).set 4 (some 40)).map =
      [(2, some 20), (3, some 30)] ++ [(4, some 40)] ∧
    ({ map := [(1, some 10), (2, some 20), (3, some 30)], maxSize := 3 } :
        LRUCache Nat Nat).get 1 =
      ({ map := [(2, some 20), (3, some 30)] ++ [(1, some 10)], maxSize := 3 }, some 10) ∧
    ({ map := [(1, some 10), (2, some 20)], maxSize := 3 } :
        LRUCache Nat Nat).has 1 = true ∧
    (({ map := [(1, some 10), (2, some 20)], maxSize := 2 } :
        LRUCache Nat Nat).set 1 (some 11)).map = [(2, some 20)] ++ [(1, some 11)] := by
  refine ⟨?_, ?_, ?_, ?_⟩
  · exact C7_lru_behavior.1
      { map := [(1, some 10), (2, some 20), (3, some 30)], maxSize := 3 }
      1 (some 10) [(2, some 20), (3, some 30)] 4 (some 40) rfl (by decide) (by decide)
  · have h := C7_lru_behavior.2.1
      { map := [(1, some 10), (2, some 20), (3, some 30)], maxSize := 3 }
      1 10 (by unfold NodupKeys keysOf; decide) (by decide)
    simpa [jsMapDelete] using h
  · exact (C7_lru_behavior.2.2.1
      { map := [(1, some 10), (2, some 20)], maxSize := 3 } 1).trans (by decide)
  · have h := (C7_lru_behavior.2.2.2
      { map := [(1, some 10), (2, some 20)], maxSize := 2 } 1 (some 11)
      (by unfold NodupKeys keysOf; decide) (by decide)).1
    simpa [jsMapDelete] using h

/--
C10: an `LRUCache` entry whose stored value is `undefined` is
indistinguishable from an absent key through `get`: in both cases `get`
returns `undefined` and leaves the cache (and so the entry's position in the
eviction order) completely unchanged.
-/
theorem C10_lru_undefined {K V : Type} [DecidableEq K] :
    ∀ (c : LRUCache K V) (k : K),
      (jsMapGet c.map k = some none → c.get k = (c, none)) ∧
      (jsMapGet c.map k = none → c.get k = (c, none)) := by
  intro c k
  constructor <;>
    · intro h
      unfold LRUCache.get
      rw [h]

/-- Witness for C10: a stored-`undefined` entry and an absent key. -/
theorem C10_lru_undefined_witness :
    ({ map := [(1, none), (2, some 20)], maxSize := 2 } : LRUCache Nat Nat).get 1 =
      ({ map := [(1, none), (2, some 20)], maxSize := 2 }, none) ∧
    ({ map := [(1, none), (2, some 20)], maxSize := 2 } : LRUCache Nat Nat).get 3 =
      ({ map := [(1, none), (2, some 20)], maxSize := 2 }, none) :=
  ⟨(C10_lru_undefined { map := [(1, none), (2, some 20)], maxSize := 2 } 1).1 (by decide),
   (C10_lru_undefined { map := [(1, none), (2, some 20)], maxSize := 2 } 3).2 (by decide)⟩

/-- Task behaviors for the two C5 scenarios: in the first, task 0 throws
synchronously; in the second, task 1 (queued behind a running task 0) throws
synchronously when dequeued. -/
def behC5 : Nat → TaskKind := fun t => if t = 0 then TaskKind.syncThrow else TaskKind.async

/-- Task behavior for the queued-sync-throw C5 scenario. -/
def behC5chain : Nat → TaskKind := fun t => if t = 1 then TaskKind.syncThrow else TaskKind.async

/--
C5: a `ConcurrencyLimiter` with `maxConcurrent = 1` whose running unit
throws synchronously rejects that caller's handle, leaves the running count
at 0, and dequeues the next waiting unit, so a normal unit submitted
afterwards still runs to completion — no deadlock.  First scenario: a
sync-throwing task followed by a normal task.  Second scenario: a normal
task, a queued sync-throwing task and a queued normal task; the sync throw
of the dequeued task still lets the following queued task run and complete.
-/
theorem C5_sync_throw_no_deadlock :
    (limRun behC5 1 500 [LimEvent.call 0, LimEvent.call 1, LimEvent.settle 1 true] =
       { running := 0, queue := [], inFlight := [],
         outcomes := [(0, TaskOutcome.rejectedSync), (1, TaskOutcome.fulfilled)] }) ∧
    (limRun behC5chain 1 500
        [LimEvent.call 0, LimEvent.call 1, LimEvent.call 2, LimEvent.settle 0 true,
         LimEvent.settle 2 true] =
       { running := 0, queue := [], inFlight := [],
         outcomes := [(0, TaskOutcome.fulfilled), (1, TaskOutcome.rejectedSync),
                      (2, TaskOutcome.fulfilled)] }) := by
  constructor <;> decide

/--
C1: in the post-settlement continuation of a resolve call (the lines after
`await lineCountPromise`), if the metadata cache no longer holds exactly the
fingerprint committed at the start of the call, then the settled count is
not written to the line-count cache and the call returns no decoration.
-/
theorem C1_stale_discard :
    ∀ (st : Caches) (filePath : String) (size mtime lineCount : Nat),
      lruObs st.fileMetadataCache filePath ≠ some { size := size, mtimeMs := mtime } →
      (afterCount filePath size mtime lineCount st).2 = none ∧
      (afterCount filePath size mtime lineCount st).1.lineCountCache =
        st.lineCountCache := by
  intro st filePath size mtime lineCount hstale
  unfold afterCount
  by_cases hz : lineCount ≤ 0
  · simp [hz]
  · have hsnd := lru_get_snd st.fileMetadataCache filePath
    cases hobs : lruObs st.fileMetadataCache filePath with
    | none =>
        rw [hobs] at hsnd
        simp [hz, hsnd]
    | some cm =>
        rw [hobs] at hsnd
        have hne : cm.size ≠ size ∨ cm.mtimeMs ≠ mtime := by
          by_contra hcon
          push_neg at hcon
          apply hstale
          rw [hobs]
          obtain ⟨s0, t0⟩ := cm
          simp at hcon
          rw [hcon.1, hcon.2]
        simp [hz, hsnd, hne]

/-- Caches for the C1 witness: the stored fingerprint for `"f"` is
`⟨1, 1⟩`, different from the fingerprint `⟨2, 2⟩` the call committed. -/
def cachesC1 : Caches :=
  { lineCountCache := { map := [("f", some 7)], maxSize := 10000 },
    fileDecorations := { map := [], maxSize := 10000 },
    fileMetadataCache := { map := [("f", some { size := 1, mtimeMs := 1 })], maxSize := 10000 } }

/-- Witness for C1: a settled count of 5 against a changed fingerprint is
dropped. -/
theorem C1_stale_discard_witness :
    (afterCount "f" 2 2 5 cachesC1).2 = none ∧
    (afterCount "f" 2 2 5 cachesC1).1.lineCountCache = cachesC1.lineCountCache :=
  C1_stale_discard cachesC1 "f" 2 2 5 (by decide)

/--
C2: the in-flight registry holds at most one live handle per file path at
every instant (along any operation trace the registry's keys are
duplicate-free); the handle for a path is removed on settlement; and two
resolve calls for the same path, the second arriving before the first's
computation settles, share the same handle and start exactly one underlying
computation (so both callers observe the settlement of that one handle).
-/
theorem C2_dedup_registry :
    (∀ ops : List PQOp, NodupKeys (pqRun ops).queue) ∧
    (∀ (ops : List PQOp) (p : String),
       jsMapGet (pqRun (ops ++ [PQOp.settle p])).queue p = none) ∧
    (∀ (st : PQState) (p : String), jsMapGet st.queue p = none →
       (pqAcquire (pqAcquire st p).1 p).2 = (pqAcquire st p).2 ∧
       (pqAcquire (pqAcquire st p).1 p).1.started = st.started + 1 ∧
       jsMapGet (pqAcquire (pqAcquire st p).1 p).1.queue p =
         some (pqAcquire st p).2) := by
  have hinit : NodupKeys pqInit.queue := by
    simp [pqInit, NodupKeys, keysOf]
  refine ⟨?_, ?_, ?_⟩
  · intro ops
    exact foldl_pqStep_nodup ops pqInit hinit
  · intro ops p
    unfold pqRun
    rw [List.foldl_append]
    have hnd : NodupKeys (List.foldl pqStep pqInit ops).queue :=
      foldl_pqStep_nodup ops pqInit hinit
    simp only [List.foldl_cons, List.foldl_nil, pqStep, pqSettle]
    exact jsMapGet_delete_self _ p hnd
  · intro st p h
    unfold pqAcquire
    rw [h]
    simp only []
    rw [jsMapGet_set_self]
    simp [jsMapGet_set_self]

/-- Witness for C2: two back-to-back acquires for `"a"` on a fresh registry
share one handle and start one computation. -/
theorem C2_dedup_registry_witness :
    NodupKeys (pqRun [PQOp.acquire "a", PQOp.acquire "a"]).queue ∧
    jsMapGet (pqRun ([PQOp.acquire "a"] ++ [PQOp.settle "a"])).queue "a" = none ∧
    ((pqAcquire (pqAcquire pqInit "a").1 "a").2 = (pqAcquire pqInit "a").2 ∧
     (pqAcquire (pqAcquire pqInit "a").1 "a").1.started = pqInit.started + 1 ∧
     jsMapGet (pqAcquire (pqAcquire pqInit "a").1 "a").1.queue "a" =
       some (pqAcquire pqInit "a").2) :=
  ⟨C2_dedup_registry.1 [PQOp.acquire "a", PQOp.acquire "a"],
   C2_dedup_registry.2.1 [PQOp.acquire "a"] "a",
   C2_dedup_registry.2.2 pqInit "a" (by decide)⟩

/--
C6: for a limiter with `maxConcurrent = maxC` and `maxQueued = maxQ`, at
most `maxC` units run at every instant of every event trace; a `run` call
arriving with all slots busy but queue space left appends the unit to the
FIFO queue; a free slot starts exactly the queue head (submission order);
and a `run` call arriving with `maxC` running and `maxQ` queued rejects
immediately with a queue-full outcome, leaving the running count and the
queue unchanged.
-/
theorem C6_limiter_bounds (beh : Nat → TaskKind) (maxC maxQ : Nat) :
    (∀ evs : List LimEvent, (limRun beh maxC maxQ evs).running ≤ maxC) ∧
    (∀ (st : LimState) (t : Nat), ¬ st.running < maxC → st.queue.length < maxQ →
       runCallM beh maxC maxQ t st = { st with queue := st.queue ++ [t] }) ∧
    (∀ (st : LimState) (next : Nat) (rest : List Nat), st.queue = next :: rest →
       st.running < maxC →
       dequeueM beh maxC st = execute beh maxC next { st with queue := rest }) ∧
    (∀ (st : LimState) (t : Nat), ¬ st.running < maxC → ¬ st.queue.length < maxQ →
       runCallM beh maxC maxQ t st =
         { st with outcomes := st.outcomes ++ [(t, TaskOutcome.queueFull)] }) := by
  refine ⟨?_, ?_, ?_, ?_⟩
  · intro evs
    exact foldl_limStep_running_le beh maxC maxQ evs limInit (by simp [limInit])
  · intro st t h1 h2
    unfold runCallM
    simp [h1, h2]
  · intro st next rest hq hr
    unfold dequeueM
    rw [hq]
    simp [hr]
  · intro st t h1 h2
    unfold runCallM
    simp [h1, h2]

/-- Witness for C6 at concrete limiter states. -/
theorem C6_limiter_bounds_witness :
    (limRun (fun _ => TaskKind.async) 2 1
        [LimEvent.call 0, LimEvent.call 1, LimEvent.call 2]).running ≤ 2 ∧
    runCallM (fun _ => TaskKind.async) 1 2 5
        { running := 1, queue := [3], inFlight := [0], outcomes := [] } =
      { running := 1, queue := [3, 5], inFlight := [0], outcomes := [] } ∧
    dequeueM (fun _ => TaskKind.async) 1
        { running := 0, queue := [7, 8], inFlight := [], outcomes := [] } =
      execute (fun _ => TaskKind.async) 1 7
        { running := 0, queue := [8], inFlight := [], outcomes := [] } ∧
    runCallM (fun _ => TaskKind.async) 1 1 9
        { running := 1, queue := [3], inFlight := [0], outcomes := [] } =
      { running := 1, queue := [3], inFlight := [0],
        outcomes := [(9, TaskOutcome.queueFull)] } :=
  ⟨(C6_limiter_bounds (fun _ => TaskKind.async) 2 1).1
      [LimEvent.call 0, LimEvent.call 1, LimEvent.call 2],
   (C6_limiter_bounds (fun _ => TaskKind.async) 1 2).2.1
      { running := 1, queue := [3], inFlight := [0], outcomes := [] } 5
      (by decide) (by decide),
   (C6_limiter_bounds (fun _ => TaskKind.async) 1 2).2.2.1
      { running := 0, queue := [7, 8], inFlight := [], outcomes := [] } 7 [8]
      rfl (by decide),
   (C6_limiter_bounds (fun _ => TaskKind.async) 1 1).2.2.2
      { running := 1, queue := [3], inFlight := [0], outcomes := [] } 9
      (by decide) (by decide)⟩

/-- Empty caches at their production capacity. -/
def emptyCaches : Caches :=
  { lineCountCache := { map := [], maxSize := 10000 },
    fileDecorations := { map := [], maxSize := 10000 },
    fileMetadataCache := { map := [], maxSize := 10000 } }

/-- A configuration with a 100 ms debounce delay. -/
def cfgStd : Config :=
  { sizeLimit := 5000000, estimationFactor := 50, debounceDelay := 100 }

/-- Provider state for the C3 counterexample: a refresh timer is running,
scheduled at time 0 with delay 100 (the configured debounce delay), so it
will fire at time 100. -/
def psC3 : ProviderState :=
  { caches := emptyCaches, processingQueue := [], pendingUpdates := [],
    refreshTimer := some 100, fullRefreshPending := false }

/--
C3 counterexample: the claim says both debounce queues restart a running
timer only when the newly requested delay is strictly shorter than the delay
the running timer was scheduled with.  For the decoration provider's
batcher this fails: with a timer scheduled at time 0 with delay 100 (due at
time 100), a `refresh` at time 50 requesting the same delay 100 — not
strictly shorter — still clears and reschedules the timer to fire at time
150, a plain reset on every event.
-/
theorem C3_debounce_min_counterexample :
    (refreshM (some ["a"]) psC3 50 false cfgStd).refreshTimer = some 150 ∧
    psC3.refreshTimer = some 100 ∧
    ¬ cfgStd.debounceDelay < cfgStd.debounceDelay := by
  refine ⟨by decide, rfl, by decide⟩

/--
C3 (amended): the min-delay restart rule holds for the file-watcher change
funnel `queueUpdate` — below the cap, a timer is started with the normalized
delay when none runs, a running timer is restarted exactly when the new
normalized delay is strictly shorter, and is left untouched otherwise —
while the decoration provider's batcher (`refresh` and `updateFromBuffer`)
clears and reschedules its timer on every call, regardless of the
previously scheduled fire time.
-/
theorem C3_debounce_min_amended :
    (∀ (ws : WatcherState) (p : String) (d : Option Nat) (cfg : Config) (now : Nat),
       (setAdd ws.pendingWatcherUpdates p).length ≤ WATCHER_QUEUE_CAP →
       ws.watcherQueueTimer = none →
       queueUpdateM p ws d cfg now =
         ({ pendingWatcherUpdates := setAdd ws.pendingWatcherUpdates p,
            watcherQueueTimer := some (now + max 50 (d.getD cfg.debounceDelay)),
            watcherQueueDelayMs := max 50 (d.getD cfg.debounceDelay) },
          WatcherEffect.noEffect)) ∧
    (∀ (ws : WatcherState) (p : String) (d : Option Nat) (cfg : Config)
       (now t0 : Nat),
       (setAdd ws.pendingWatcherUpdates p).length ≤ WATCHER_QUEUE_CAP →
       ws.watcherQueueTimer = some t0 →
       max 50 (d.getD cfg.debounceDelay) < ws.watcherQueueDelayMs →
       queueUpdateM p ws d cfg now =
         ({ pendingWatcherUpdates := setAdd ws.pendingWatcherUpdates p,
            watcherQueueTimer := some (now + max 50 (d.getD cfg.debounceDelay)),
            watcherQueueDelayMs := max 50 (d.getD cfg.debounceDelay) },
          WatcherEffect.noEffect)) ∧
    (∀ (ws : WatcherState) (p : String) (d : Option Nat) (cfg : Config)
       (now t0 : Nat),
       (setAdd ws.pendingWatcherUpdates p).length ≤ WATCHER_QUEUE_CAP →
       ws.watcherQueueTimer = some t0 →
       ¬ max 50 (d.getD cfg.debounceDelay) < ws.watcherQueueDelayMs →
       queueUpdateM p ws d cfg now =
         ({ ws with pendingWatcherUpdates := setAdd ws.pendingWatcherUpdates p },
          WatcherEffect.noEffect)) ∧
    (∀ (resources : Option (List String)) (ps : ProviderState) (now : Nat)
       (isInit : Bool) (cfg : Config),
       (refreshM resources ps now isInit cfg).refreshTimer =
         some (now + (if isInit then max 100 cfg.debounceDelay
           else cfg.debounceDelay))) ∧
    (∀ (p : String) (n : Nat) (ps : ProviderState) (now : Nat) (cfg : Config),
       0 < n →
       (updateFromBufferM p n ps now cfg).refreshTimer =
         some (now + cfg.debounceDelay)) := by
  refine ⟨?_, ?_, ?_, ?_, ?_⟩
  · intro ws p d cfg now hcap htimer
    unfold queueUpdateM
    rw [htimer]
    simp [Nat.not_lt.mpr hcap]
  · intro ws p d cfg now t0 hcap htimer hlt
    unfold queueUpdateM
    rw [htimer]
    simp [Nat.not_lt.mpr hcap, hlt]
  · intro ws p d cfg now t0 hcap htimer hge
    unfold queueUpdateM
    rw [htimer]
    simp [Nat.not_lt.mpr hcap, hge]
  · intro resources ps now isInit cfg
    unfold refreshM
    simp
  · intro p n ps now cfg hn
    unfold updateFromBufferM
    simp [Nat.not_le.mpr hn]

/-- Funnel state with no running timer, for the C3 witness. -/
def wsIdle : WatcherState :=
  { pendingWatcherUpdates := [], watcherQueueTimer := none, watcherQueueDelayMs := 0 }

/-- Funnel state whose timer was scheduled with delay 100 and fires at 200,
for the C3 witness. -/
def wsRunning : WatcherState :=
  { pendingWatcherUpdates := [], watcherQueueTimer := some 200, watcherQueueDelayMs := 100 }

/-- Witness for C3 (amended) at concrete funnel and batcher states. -/
theorem C3_debounce_min_amended_witness :
    queueUpdateM "a" wsIdle (some 80) cfgStd 10 =
      ({ pendingWatcherUpdates := ["a"], watcherQueueTimer := some 90,
         watcherQueueDelayMs := 80 }, WatcherEffect.noEffect) ∧
    queueUpdateM "a" wsRunning (some 60) cfgStd 150 =
      ({ pendingWatcherUpdates := ["a"], watcherQueueTimer := some 210,
         watcherQueueDelayMs := 60 }, WatcherEffect.noEffect) ∧
    queueUpdateM "a" wsRunning (some 100) cfgStd 150 =
      ({ wsRunning with pendingWatcherUpdates := ["a"] }, WatcherEffect.noEffect) ∧
    (refreshM none psC3 50 false cfgStd).refreshTimer = some 150 ∧
    (updateFromBufferM "a" 3 psC3 50 cfgStd).refreshTimer = some 150 := by
  refine ⟨?_, ?_, ?_, ?_, ?_⟩
  · exact C3_debounce_min_amended.1 wsIdle "a" (some 80) cfgStd 10 (by decide) rfl
  · exact C3_debounce_min_amended.2.1 wsRunning "a" (some 60) cfgStd 150 200
      (by decide) rfl (by decide)
  · exact C3_debounce_min_amended.2.2.1 wsRunning "a" (some 100) cfgStd 150 200
      (by decide) rfl (by decide)
  · exact C3_debounce_min_amended.2.2.2.1 none psC3 50 false cfgStd
  · exact C3_debounce_min_amended.2.2.2.2 "a" 3 psC3 50 cfgStd (by decide)

/-- Provider state for the C8 counterexample: freshly constructed batcher. -/
def psC8 : ProviderState :=
  { caches := emptyCaches, processingQueue := [], pendingUpdates := [],
    refreshTimer := none, fullRefreshPending := false }

/--
C8 counterexample: the claimed invariant — whenever `fullRefreshPending` is
true the pending-update set is empty, after every batcher operation — fails:
a `refresh()` with no argument followed by a `refresh([a])` with a specific
URI leaves `fullRefreshPending = true` while `pendingUpdates` holds `"a"`.
-/
theorem C8_batcher_invariant_counterexample :
    (refreshM (some ["a"]) (refreshM none psC8 0 false cfgStd) 10 false
        cfgStd).fullRefreshPending = true ∧
    (refreshM (some ["a"]) (refreshM none psC8 0 false cfgStd) 10 false
        cfgStd).pendingUpdates = ["a"] := by
  constructor <;> decide

/--
C8 (amended): the two representations are not kept mutually exclusive by
every operation — `refresh` with specific URIs and `updateFromBuffer` add
pending keys without checking `fullRefreshPending` — but the invariant holds
after `refresh()` with no argument, and `flushUpdates` gives priority to the
full-refresh flag: it always leaves the flag false, and when the flag was
set it emits the single full-refresh event and discards any pending keys.
-/
theorem C8_batcher_invariant_amended :
    (∀ (ps : ProviderState) (now : Nat) (isInit : Bool) (cfg : Config),
       (refreshM none ps now isInit cfg).fullRefreshPending = true ∧
       (refreshM none ps now isInit cfg).pendingUpdates = []) ∧
    (∀ ps : ProviderState,
       (flushUpdatesM ps).1.fullRefreshPending = false ∧
       (ps.fullRefreshPending = true →
         (flushUpdatesM ps).2 = FlushEvent.fireAll ∧
         (flushUpdatesM ps).1.pendingUpdates = [])) := by
  constructor
  · intro ps now isInit cfg
    unfold refreshM
    simp
  · intro ps
    constructor
    · unfold flushUpdatesM
      by_cases hf : ps.fullRefreshPending
      · simp [hf]
      · by_cases hp : ps.pendingUpdates.length = 0 <;> simp [hf, hp]
    · intro hf
      unfold flushUpdatesM
      simp [hf]

/-- Witness for C8 (amended): the violating state reached in the
counterexample is cleaned up by the next flush. -/
theorem C8_batcher_invariant_amended_witness :
    ((refreshM none psC8 0 false cfgStd).fullRefreshPending = true ∧
     (refreshM none psC8 0 false cfgStd).pendingUpdates = []) ∧
    ((flushUpdatesM (refreshM (some ["a"]) (refreshM none psC8 0 false cfgStd)
         10 false cfgStd)).1.fullRefreshPending = false ∧
     ((refreshM (some ["a"]) (refreshM none psC8 0 false cfgStd) 10 false
           cfgStd).fullRefreshPending = true →
       (flushUpdatesM (refreshM (some ["a"]) (refreshM none psC8 0 false cfgStd)
           10 false cfgStd)).2 = FlushEvent.fireAll ∧
       (flushUpdatesM (refreshM (some ["a"]) (refreshM none psC8 0 false cfgStd)
           10 false cfgStd)).1.pendingUpdates = [])) :=
  ⟨C8_batcher_invariant_amended.1 psC8 0 false cfgStd,
   C8_batcher_invariant_amended.2
     (refreshM (some ["a"]) (refreshM none psC8 0 false cfgStd) 10 false cfgStd)⟩

/-- Cache state after the fast-path cache reads and the fingerprint commit
of a resolve call (lines 58–75): both `get` promotions applied and the
freshly observed fingerprint written to the metadata cache. -/
def commitFingerprint (st : Caches) (p : String) (size mtime : Nat) : Caches :=
  { st with
    fileMetadataCache :=
      ((st.fileMetadataCache.get p).1).set p (some { size := size, mtimeMs := mtime }),
    lineCountCache := (st.lineCountCache.get p).1 }

theorem afterCount_zero (p : String) (size mtime : Nat) (st : Caches) :
    afterCount p size mtime 0 st =
      ({ st with fileDecorations := st.fileDecorations.delete p }, none) := by
  unfold afterCount
  simp

theorem countLinesM_err (p : String) (st : Caches) (size mtime : Nat)
    (cfg : Config) (hlim : ¬ size > cfg.sizeLimit) :
    countLinesM p st true size mtime false ReadOutcome.err cfg =
      ({ lineCountCache := st.lineCountCache.delete p,
         fileDecorations := st.fileDecorations.delete p,
         fileMetadataCache :=
           (st.fileMetadataCache.set p
             (some { size := size, mtimeMs := mtime })).delete p }, 0) := by
  unfold countLinesM
  simp [hlim]

theorem lru_set_obs {K V : Type} [DecidableEq K] (c : LRUCache K V) (k : K)
    (v : V) : lruObs (c.set k (some v)) k = some v := by
  unfold lruObs
  rw [lru_set_obs_self]

theorem lru_get_fst_binding {K V : Type} [DecidableEq K] (c : LRUCache K V)
    (k : K) (w : V) (h : jsMapGet c.map k = some (some w)) :
    jsMapGet ((c.get k).1).map k = some (some w) := by
  unfold LRUCache.get
  rw [h]
  simp only []
  rw [jsMapGet_set_self]

theorem provide_slow_ran (p : String) (st : Caches) (size mtime : Nat)
    (b : Bool) (r : ReadOutcome) (interfere : Caches → Caches) (cfg : Config)
    (hhit : fastHit st p size mtime = none)
    (hsz : size ≠ 0) (hlim : ¬ size > cfg.sizeLimit) :
    provideFileDecorationM p st (StatOutcome.isFile size mtime)
        (LimiterOutcome.ran b r) interfere cfg =
      afterCount p size mtime
        (countLinesM p (commitFingerprint st p size mtime) true size mtime b r cfg).2
        (interfere
          (countLinesM p (commitFingerprint st p size mtime) true size mtime b r cfg).1) := by
  unfold provideFileDecorationM
  simp [hhit, hsz, hlim, commitFingerprint]

theorem provide_slow_queue_full (p : String) (st : Caches) (size mtime : Nat)
    (interfere : Caches → Caches) (cfg : Config)
    (hhit : fastHit st p size mtime = none)
    (hsz : size ≠ 0) (hlim : ¬ size > cfg.sizeLimit) :
    provideFileDecorationM p st (StatOutcome.isFile size mtime)
        LimiterOutcome.queueFull interfere cfg =
      afterCount p size mtime 0 (interfere (commitFingerprint st p size mtime)) := by
  unfold provideFileDecorationM
  simp [hhit, hsz, hlim, commitFingerprint]

/-- Caches holding entries for `"f"` in all three caches, for the C4
counterexample. -/
def cachesC4 : Caches :=
  { lineCountCache := { map := [("f", some 7)], maxSize := 10000 },
    fileDecorations := { map := [("f", some (createLineDecoration 7 false))], maxSize := 10000 },
    fileMetadataCache := { map := [("f", some { size := 1, mtimeMs := 1 })], maxSize := 10000 } }

/--
C4 counterexample: the claim says that a resolve call ending in NotFound
leaves all three per-key caches purged for the key.  In the code a failing
stat call is absorbed by the outer catch, which returns no annotation
without touching any cache: starting from caches that hold entries for
`"f"`, the call returns the caches unchanged, entries included.
-/
theorem C4_failure_purge_counterexample :
    provideFileDecorationM "f" cachesC4 StatOutcome.statError
        (LimiterOutcome.ran false ReadOutcome.err) id cfgStd = (cachesC4, none) ∧
    jsMapGet cachesC4.fileMetadataCache.map "f" = some (some { size := 1, mtimeMs := 1 }) ∧
    jsMapGet cachesC4.lineCountCache.map "f" = some (some 7) := by
  refine ⟨rfl, by decide, by decide⟩

/--
C4 (amended): a computation failure inside the line counter (read error or
read timeout) returns no annotation and leaves all three caches purged for
the key.  A NotFound outcome (stat throws, or the path is not a regular
file) returns no annotation but leaves the caches exactly as they were.  A
limiter queue-full rejection returns no annotation and deletes the cached
decoration, but the fingerprint committed at the start of the call stays in
the metadata cache, and a previously cached line count is retained.
-/
theorem C4_failure_purge_amended :
    (∀ (st : Caches) (p : String) (size mtime : Nat) (cfg : Config),
       NodupKeys st.lineCountCache.map → NodupKeys st.fileDecorations.map →
       NodupKeys st.fileMetadataCache.map →
       fastHit st p size mtime = none → size ≠ 0 → ¬ size > cfg.sizeLimit →
       (provideFileDecorationM p st (StatOutcome.isFile size mtime)
           (LimiterOutcome.ran false ReadOutcome.err) id cfg).2 = none ∧
       jsMapGet (provideFileDecorationM p st (StatOutcome.isFile size mtime)
           (LimiterOutcome.ran false ReadOutcome.err) id cfg).1.lineCountCache.map p
         = none ∧
       jsMapGet (provideFileDecorationM p st (StatOutcome.isFile size mtime)
           (LimiterOutcome.ran false ReadOutcome.err) id cfg).1.fileDecorations.map p
         = none ∧
       jsMapGet (provideFileDecorationM p st (StatOutcome.isFile size mtime)
           (LimiterOutcome.ran false ReadOutcome.err) id cfg).1.fileMetadataCache.map p
         = none) ∧
    (∀ (st : Caches) (p : String) (outcome : LimiterOutcome)
       (interfere : Caches → Caches) (cfg : Config),
       provideFileDecorationM p st StatOutcome.statError outcome interfere cfg =
         (st, none) ∧
       provideFileDecorationM p st StatOutcome.notAFile outcome interfere cfg =
         (st, none)) ∧
    (∀ (st : Caches) (p : String) (size mtime c0 : Nat) (cfg : Config),
       NodupKeys st.fileDecorations.map →
       fastHit st p size mtime = none →
       jsMapGet st.lineCountCache.map p = some (some c0) →
       size ≠ 0 → ¬ size > cfg.sizeLimit →
       (provideFileDecorationM p st (StatOutcome.isFile size mtime)
           LimiterOutcome.queueFull id cfg).2 = none ∧
       lruObs (provideFileDecorationM p st (StatOutcome.isFile size mtime)
           LimiterOutcome.queueFull id cfg).1.fileMetadataCache p =
         some { size := size, mtimeMs := mtime } ∧
       jsMapGet (provideFileDecorationM p st (StatOutcome.isFile size mtime)
           LimiterOutcome.queueFull id cfg).1.lineCountCache.map p =
         some (some c0) ∧
       jsMapGet (provideFileDecorationM p st (StatOutcome.isFile size mtime)
           LimiterOutcome.queueFull id cfg).1.fileDecorations.map p = none) := by
  refine ⟨?_, ?_, ?_⟩
  · intro st p size mtime cfg hnd1 hnd2 hnd3 hhit hsz hlim
    rw [provide_slow_ran p st size mtime false ReadOutcome.err id cfg hhit hsz hlim]
    rw [countLinesM_err p _ size mtime cfg hlim]
    simp only [id_eq]
    rw [afterCount_zero]
    refine ⟨rfl, ?_, ?_, ?_⟩
    · simp only [commitFingerprint]
      exact lru_delete_obs_self (st.lineCountCache.get p).1 p
        (lru_get_nodup _ _ hnd1)
    · simp only [commitFingerprint]
      exact lru_delete_obs_self (st.fileDecorations.delete p) p
        (lru_delete_nodup _ _ hnd2)
    · simp only [commitFingerprint]
      exact lru_delete_obs_self _ p
        (lru_set_nodup _ _ _ (lru_set_nodup _ _ _ (lru_get_nodup _ _ hnd3)))
  · intro st p outcome interfere cfg
    exact ⟨rfl, rfl⟩
  · intro st p size mtime c0 cfg hnd2 hhit hcnt hsz hlim
    rw [provide_slow_queue_full p st size mtime id cfg hhit hsz hlim]
    simp only [id_eq]
    rw [afterCount_zero]
    refine ⟨rfl, ?_, ?_, ?_⟩
    · simp only [commitFingerprint]
      exact lru_set_obs (st.fileMetadataCache.get p).1 p
        { size := size, mtimeMs := mtime }
    · simp only [commitFingerprint]
      exact lru_get_fst_binding st.lineCountCache p c0 hcnt
    · simp only [commitFingerprint]
      exact lru_delete_obs_self st.fileDecorations p hnd2

/-- Witness for C4 (amended), exercised on `cachesC4`, whose cached count 7
for `"f"` is stale (its metadata entry `⟨1, 1⟩` mismatches the observed
fingerprint `⟨2, 2⟩`, so the fast path misses): a read failure purges all
three entries including the stale count, NotFound leaves the caches alone,
and queue-full leaves the committed fingerprint and the stale count behind. -/
theorem C4_failure_purge_amended_witness :
    ((provideFileDecorationM "f" cachesC4 (StatOutcome.isFile 2 2)
         (LimiterOutcome.ran false ReadOutcome.err) id cfgStd).2 = none ∧
     jsMapGet (provideFileDecorationM "f" cachesC4 (StatOutcome.isFile 2 2)
         (LimiterOutcome.ran false ReadOutcome.err) id cfgStd).1.lineCountCache.map "f"
       = none ∧
     jsMapGet (provideFileDecorationM "f" cachesC4 (StatOutcome.isFile 2 2)
         (LimiterOutcome.ran false ReadOutcome.err) id cfgStd).1.fileDecorations.map "f"
       = none ∧
     jsMapGet (provideFileDecorationM "f" cachesC4 (StatOutcome.isFile 2 2)
         (LimiterOutcome.ran false ReadOutcome.err) id cfgStd).1.fileMetadataCache.map "f"
       = none) ∧
    (provideFileDecorationM "f" cachesC4 StatOutcome.notAFile
        LimiterOutcome.queueFull id cfgStd = (cachesC4, none)) ∧
    ((provideFileDecorationM "f" cachesC4 (StatOutcome.isFile 2 2)
         LimiterOutcome.queueFull id cfgStd).2 = none ∧
     lruObs (provideFileDecorationM "f" cachesC4 (StatOutcome.isFile 2 2)
         LimiterOutcome.queueFull id cfgStd).1.fileMetadataCache "f" =
       some { size := 2, mtimeMs := 2 } ∧
     jsMapGet (provideFileDecorationM "f" cachesC4 (StatOutcome.isFile 2 2)
         LimiterOutcome.queueFull id cfgStd).1.lineCountCache.map "f" =
       some (some 7) ∧
     jsMapGet (provideFileDecorationM "f" cachesC4 (StatOutcome.isFile 2 2)
         LimiterOutcome.queueFull id cfgStd).1.fileDecorations.map "f" = none) := by
  have hhit : fastHit cachesC4 "f" 2 2 = none := by
    unfold cachesC4 fastHit LRUCache.get
    decide
  refine ⟨?_, ?_, ?_⟩
  · exact C4_failure_purge_amended.1 cachesC4 "f" 2 2 cfgStd
      (by unfold cachesC4 NodupKeys keysOf; decide)
      (by unfold cachesC4 NodupKeys keysOf; decide)
      (by unfold cachesC4 NodupKeys keysOf; decide)
      hhit (by decide) (by decide)
  · exact (C4_failure_purge_amended.2.1 cachesC4 "f" LimiterOutcome.queueFull
      id cfgStd).2
  · exact C4_failure_purge_amended.2.2 cachesC4 "f" 2 2 7 cfgStd
      (by unfold cachesC4 NodupKeys keysOf; decide)
      hhit
      (by unfold cachesC4; decide)
      (by decide) (by decide)

end LineSight
